import Mathlib

/-!
Shallow embedding of `src/api/index.py` (a Slack bounty-scraper web service)
and proofs about its value-extraction heuristic, recency filter, ranking,
dedup state and error handling.

Conventions of the embedding:
* Python strings are `String` / `List Char`; monetary values parsed by
  `float(...)` are modelled exactly as rationals `ℚ`.
* `datetime` instants are integers (seconds); `timedelta(hours=24)` is `86400`.
* The regular expressions used by the code are embedded as deterministic
  scanners.  For each of the concrete patterns appearing in the source, greedy
  scanning with the explicit fallback cases written below is extensionally
  equal to Python `re.findall` semantics (leftmost match, scan resumes after a
  match, advance one character on failure), because in these patterns no
  backtracking alternative can ever succeed when the greedy one fails.
* Fallible exterior effects are explicit parameters: the page fetch is an
  `Except Unit Page`, the timestamp parser is a `String → Option ℤ`
  parameter, the Slack POST outcome is a `Bool`, the webhook environment
  variable is an `Option String`.
-/

set_option linter.unusedVariables false

namespace Scraper

/-! ## Low-level text scanning -/

/-- Greedy run of decimal digits: the longest digit prefix of `cs` paired with
the rest.  Embeds a greedy occurrence of a digit-run piece of a pattern. -/
def digitRun (cs : List Char) : List Char × List Char :=
  (cs.takeWhile Char.isDigit, cs.dropWhile Char.isDigit)

/-- Greedy scan for zero or more groups consisting of a comma followed by
exactly three digits (the thousands groups of the money patterns in
`src/api/index.py` lines 26-30). -/
def commaGroups : List Char → List Char × List Char
  | ',' :: d1 :: d2 :: d3 :: cs =>
      if d1.isDigit && d2.isDigit && d3.isDigit then
        let p := commaGroups cs
        (',' :: d1 :: d2 :: d3 :: p.1, p.2)
      else ([], ',' :: d1 :: d2 :: d3 :: cs)
  | cs => ([], cs)

/-- Optional group of a dot followed by exactly two digits (the cents part of
the money patterns). -/
def dotGroup2 : List Char → List Char × List Char
  | '.' :: d1 :: d2 :: cs =>
      if d1.isDigit && d2.isDigit then (['.', d1, d2], cs)
      else ([], '.' :: d1 :: d2 :: cs)
  | cs => ([], cs)

/-- Case-insensitive literal scan: `ciLit pat cs` returns the rest of `cs`
after the literal `pat` (given lowercase) when `cs` starts with it, ignoring
case. -/
def ciLit : List Char → List Char → Option (List Char)
  | [], cs => some cs
  | _ :: _, [] => none
  | p :: ps, c :: cs => if c.toLower = p then ciLit ps cs else none

/-- Scan for the alternation of the literal `USD` or `dollar` with an optional
trailing `s`, case-insensitively, as in the third pattern of
`extract_bounty_value`. -/
def usdOrDollars : List Char → Option (List Char)
  | cs =>
    match ciLit ['u', 's', 'd'] cs with
    | some r => some r
    | none =>
      match ciLit ['d', 'o', 'l', 'l', 'a', 'r'] cs with
      | some ('s' :: r) => some r
      | some ('S' :: r) => some r
      | some r => some r
      | none => none

/-- Scan for the alternation of `USD`, `dollar(s)` or a literal dollar sign,
as in the third page-scanning pattern of `scrape_replit_bounties`. -/
def usdDollarsOrSign (cs : List Char) : Option (List Char) :=
  match usdOrDollars cs with
  | some r => some r
  | none =>
    match cs with
    | '$' :: r => some r
    | _ => none

/-- Matcher for the pattern of a dollar sign followed by digits with optional
thousands groups and an optional two-digit cents part
(`src/api/index.py` line 27 and line 72).  Returns the captured group (the
part after the dollar sign) and the rest of the input after the match. -/
def matchDollarNum : List Char → Option (List Char × List Char)
  | '$' :: cs =>
      let d := digitRun cs
      if d.1 = [] then none
      else
        let g := commaGroups d.2
        let f := dotGroup2 g.2
        some (d.1 ++ g.1 ++ f.1, f.2)
  | _ => none

/-- Scan for a single `k` or `K` at the head, returning the rest. -/
def kHead : List Char → Option (List Char)
  | 'k' :: rest => some rest
  | 'K' :: rest => some rest
  | _ => none

/-- Scan for a single dot at the head, returning the rest. -/
def dotHead : List Char → Option (List Char)
  | '.' :: rest => some rest
  | _ => none

/-- Matcher for the pattern of a dollar sign followed by digits, an optional
fractional part, and a `k` or `K` (`src/api/index.py` line 28).  The explicit
cases resolve the only backtracking possibilities of the regex. -/
def matchDollarK : List Char → Option (List Char × List Char)
  | '$' :: cs =>
      let d := digitRun cs
      if d.1 = [] then none
      else
        match kHead d.2 with
        | some rest => some (d.1, rest)
        | none =>
          match dotHead d.2 with
          | some cs2 =>
              let f := digitRun cs2
              if f.1 = [] then none
              else
                match kHead f.2 with
                | some rest => some (d.1 ++ '.' :: f.1, rest)
                | none => none
          | none => none
  | _ => none

/-- Matcher for the pattern of digits with optional thousands groups and cents
followed by optional whitespace and `USD`/`dollar(s)`
(`src/api/index.py` line 29 and line 73). -/
def matchNumUSD (cs : List Char) : Option (List Char × List Char) :=
  let d := digitRun cs
  if d.1 = [] then none
  else
    let g := commaGroups d.2
    let f := dotGroup2 g.2
    match usdOrDollars (f.2.dropWhile Char.isWhitespace) with
    | some rest => some (d.1 ++ g.1 ++ f.1, rest)
    | none => none

/-- Shared tail of `matchNumK`: after the `k`, optional whitespace then
`USD`, `dollar(s)` or a dollar sign. -/
def numKTail (g : List Char) (rest : List Char) : Option (List Char × List Char) :=
  match usdDollarsOrSign (rest.dropWhile Char.isWhitespace) with
  | some r => some (g, r)
  | none => none

/-- Matcher for the page-scanning pattern of digits with optional fraction,
a `k`/`K`, optional whitespace and a currency word or dollar sign
(`src/api/index.py` line 74). -/
def matchNumK (cs : List Char) : Option (List Char × List Char) :=
  let d := digitRun cs
  if d.1 = [] then none
  else
    match kHead d.2 with
    | some rest => numKTail d.1 rest
    | none =>
      match dotHead d.2 with
      | some cs2 =>
          let f := digitRun cs2
          if f.1 = [] then none
          else
            match kHead f.2 with
            | some rest => numKTail (d.1 ++ '.' :: f.1) rest
            | none => none
      | none => none

/-- One scanning pass of `re.findall`: try the matcher at each position, emit
the captured group on success and resume after the match, otherwise advance
one character.  The fuel argument bounds the number of steps; every matcher
used here consumes at least one character on success, so fuel equal to the
input length completes the scan. -/
def findallAux (m : List Char → Option (List Char × List Char)) :
    Nat → List Char → List (List Char)
  | 0, _ => []
  | _, [] => []
  | fuel + 1, c :: cs =>
      match m (c :: cs) with
      | some p => p.1 :: findallAux m fuel p.2
      | none => findallAux m fuel cs

/-- Embedding of `re.findall pattern text` for the patterns of the source. -/
def findall (m : List Char → Option (List Char × List Char)) (cs : List Char) :
    List (List Char) :=
  findallAux m cs.length cs

/-- Numeric value of a digit string (most significant first). -/
def digitsVal (cs : List Char) : Nat :=
  cs.foldl (fun a c => a * 10 + (c.toNat - '0'.toNat)) 0

/-- Embedding of Python `float(...)` on the unsigned decimal strings reachable
in this program: an integer part, optionally a dot and a fractional part;
anything else fails. -/
def parseFloat? (cs : List Char) : Option ℚ :=
  let ip := digitRun cs
  match ip.2 with
  | [] => if ip.1 = [] then none else some (digitsVal ip.1 : ℚ)
  | '.' :: cs2 =>
      let fp := digitRun cs2
      if fp.2 = [] then
        if ip.1 = [] && fp.1 = [] then none
        else some ((digitsVal ip.1 : ℚ) + (digitsVal fp.1 : ℚ) / (10 ^ fp.1.length : ℚ))
      else none
  | _ => none

/-- Embedding of `value_str.replace(',', '')`. -/
def stripCommas (cs : List Char) : List Char :=
  cs.filter (fun c => c ≠ ',')

/-- Embedding of the scaling test of `extract_bounty_value`
(`src/api/index.py` line 39): a lowercase `k` occurs in the lowercased text,
or an uppercase `K` occurs in the text. -/
def hasK (cs : List Char) : Bool :=
  (cs.map Char.toLower).contains 'k' || cs.contains 'K'

/-- The ordered pattern list of `extract_bounty_value`
(`src/api/index.py` lines 26-30). -/
def extractPatterns : List (List Char → Option (List Char × List Char)) :=
  [matchDollarNum, matchDollarK, matchNumUSD]

/-- The pattern loop of `extract_bounty_value` (`src/api/index.py`
lines 32-45): for each pattern in order, take the first `findall` result if
any, parse it (moving on to the next pattern on a parse failure), scale by
1000 when the text contains a `k`, and fall through to `0`. -/
def extractLoop (text : List Char) :
    List (List Char → Option (List Char × List Char)) → ℚ
  | [] => 0
  | m :: ps =>
      match findall m text with
      | [] => extractLoop text ps
      | g :: _ =>
          match parseFloat? (stripCommas g) with
          | some v => if hasK text then v * 1000 else v
          | none => extractLoop text ps

/-- Embedding of `extract_bounty_value` (`src/api/index.py` lines 20-45). -/
def extract_bounty_value (s : String) : ℚ :=
  if s.data = [] then 0 else extractLoop s.data extractPatterns

/-- The first captured match over the ordered patterns of
`extract_bounty_value`, if any pattern matches anywhere in the text. -/
def firstMatch? (s : String) : Option (List Char) :=
  match findall matchDollarNum s.data with
  | g :: _ => some g
  | [] =>
    match findall matchDollarK s.data with
    | g :: _ => some g
    | [] =>
      match findall matchNumUSD s.data with
      | g :: _ => some g
      | [] => none

/-! ## Structural facts about the scanners -/

theorem digit_ne_comma {c : Char} (h : c.isDigit = true) : ¬(c = ',') := by
  intro e
  subst e
  exact absurd h (by decide)

theorem digitRun_all (cs : List Char) : (digitRun cs).1.all Char.isDigit = true := by
  simp only [digitRun, List.all_eq_true]
  exact fun x hx => List.mem_takeWhile_imp hx

theorem digits_span {I r : List Char} (hI : I.all Char.isDigit = true)
    (hr : ∀ c, r.head? = some c → c.isDigit = false) : digitRun (I ++ r) = (I, r) := by
  induction I with
  | nil =>
      cases r with
      | nil => rfl
      | cons c t =>
          have hc := hr c rfl
          simp [digitRun, List.takeWhile_cons, List.dropWhile_cons, hc]
  | cons c I ih =>
      simp only [List.all_cons, Bool.and_eq_true] at hI
      have h2 := ih hI.2
      have h3 := congrArg Prod.fst h2
      have h4 := congrArg Prod.snd h2
      simp only [digitRun] at h3 h4 ⊢
      simp [List.takeWhile_cons, List.dropWhile_cons, hI.1, h3, h4]

theorem stripCommas_append (x y : List Char) :
    stripCommas (x ++ y) = stripCommas x ++ stripCommas y :=
  List.filter_append x y

theorem stripCommas_eq_self {l : List Char} (h : ∀ c ∈ l, ¬(c = ',')) :
    stripCommas l = l := by
  rw [stripCommas, List.filter_eq_self]
  intro a ha
  simpa using h a ha

theorem stripCommas_of_digits {I : List Char} (hI : I.all Char.isDigit = true) :
    stripCommas I = I := by
  refine stripCommas_eq_self fun c hc => digit_ne_comma ?_
  exact (List.all_eq_true.mp hI) c hc

theorem parseFloat_digits {I : List Char} (hI : I.all Char.isDigit = true) (hne : I ≠ []) :
    parseFloat? I = some (digitsVal I : ℚ) := by
  have h : digitRun I = (I, []) := by
    have := digits_span (I := I) (r := []) hI (fun c hc => by cases hc)
    simpa using this
  simp [parseFloat?, h, hne]

theorem parseFloat_digits_dot {I F : List Char} (hI : I.all Char.isDigit = true)
    (hF : F.all Char.isDigit = true) (hne : I ≠ []) :
    parseFloat? (I ++ '.' :: F) =
      some ((digitsVal I : ℚ) + (digitsVal F : ℚ) / (10 ^ F.length : ℚ)) := by
  have h : digitRun (I ++ '.' :: F) = (I, '.' :: F) := by
    refine digits_span hI fun c hc => ?_
    simp only [List.head?_cons, Option.some.injEq] at hc
    subst hc
    decide
  have h2 : digitRun F = (F, []) := by
    have := digits_span (I := F) (r := []) hF (fun c hc => by cases hc)
    simpa using this
  simp [parseFloat?, h, h2, hne]

theorem commaGroups_fallback (cs : List Char)
    (h : ∀ d1 d2 d3 tl, cs = ',' :: d1 :: d2 :: d3 :: tl → False) :
    commaGroups cs = ([], cs) := by
  rw [commaGroups.eq_def]
  split
  · next d1 d2 d3 tl => exact (h d1 d2 d3 tl rfl).elim
  · rfl

theorem commaGroups_digits (cs : List Char) :
    (stripCommas (commaGroups cs).1).all Char.isDigit = true := by
  induction cs using commaGroups.induct with
  | case1 d1 d2 d3 cs h ih =>
      simp only [commaGroups, h, if_true]
      have h' := h
      simp only [Bool.and_eq_true] at h'
      obtain ⟨⟨h1, h2⟩, h3⟩ := h'
      have e : stripCommas (',' :: d1 :: d2 :: d3 :: (commaGroups cs).1)
          = d1 :: d2 :: d3 :: stripCommas (commaGroups cs).1 := by
        simp [stripCommas, List.filter_cons, digit_ne_comma h1, digit_ne_comma h2,
          digit_ne_comma h3]
      rw [e, List.all_cons, List.all_cons, List.all_cons, h1, h2, h3, ih]
      rfl
  | case2 d1 d2 d3 cs h =>
      simp only [commaGroups, if_neg h]
      simp [stripCommas]
  | case3 cs h =>
      rw [commaGroups_fallback cs h]
      simp [stripCommas]

theorem dotGroup2_shape (cs : List Char) :
    (dotGroup2 cs).1 = [] ∨
      ∃ a b, (dotGroup2 cs).1 = ['.', a, b] ∧ (a.isDigit && b.isDigit) = true := by
  rw [dotGroup2.eq_def]
  split
  · next d1 d2 cs' =>
      split
      · next hd => exact Or.inr ⟨d1, d2, rfl, hd⟩
      · exact Or.inl rfl
  · exact Or.inl rfl

theorem stripCommas_dot2 {a b : Char} (h : (a.isDigit && b.isDigit) = true) :
    stripCommas ['.', a, b] = ['.', a, b] := by
  simp only [Bool.and_eq_true] at h
  refine stripCommas_eq_self fun c hc => ?_
  simp only [List.mem_cons, List.mem_singleton] at hc
  rcases hc with rfl | rfl | rfl | h'
  · decide
  · exact digit_ne_comma h.1
  · exact digit_ne_comma h.2
  · cases h'

/-- Core shape fact: the captured group of any of the four matchers always
parses as a float, so the `ValueError` branch of `extract_bounty_value` is
dead code. -/
theorem numShape_parsable {I C D : List Char} (hI : I.all Char.isDigit = true)
    (hne : I ≠ []) (hC : (stripCommas C).all Char.isDigit = true)
    (hD : D = [] ∨ ∃ a b, D = ['.', a, b] ∧ (a.isDigit && b.isDigit) = true) :
    ∃ v, parseFloat? (stripCommas (I ++ C ++ D)) = some v := by
  rw [stripCommas_append, stripCommas_append, stripCommas_of_digits hI]
  have hIC : (I ++ stripCommas C).all Char.isDigit = true := by
    rw [List.all_append]
    exact by simp [hI, hC]
  have hICne : I ++ stripCommas C ≠ [] := by
    intro h
    exact hne (List.append_eq_nil.mp h).1
  rcases hD with rfl | ⟨a, b, rfl, hab⟩
  · rw [show stripCommas [] = [] from rfl, List.append_nil]
    exact ⟨_, parseFloat_digits hIC hICne⟩
  · rw [stripCommas_dot2 hab, List.append_assoc]
    have hab' := hab
    simp only [Bool.and_eq_true] at hab'
    have hF : ([a, b] : List Char).all Char.isDigit = true := by
      simp [hab'.1, hab'.2]
    exact ⟨_, by rw [← List.append_assoc]; exact parseFloat_digits_dot hIC hF hICne⟩

theorem dotDigits_noComma {I F : List Char} (hI : I.all Char.isDigit = true)
    (hF : F.all Char.isDigit = true) :
    stripCommas (I ++ '.' :: F) = I ++ '.' :: F := by
  refine stripCommas_eq_self fun c hc => ?_
  simp only [List.mem_append, List.mem_cons] at hc
  rcases hc with hc | rfl | hc
  · exact digit_ne_comma ((List.all_eq_true.mp hI) c hc)
  · decide
  · exact digit_ne_comma ((List.all_eq_true.mp hF) c hc)

theorem matchDollarNum_parsable {cs g r : List Char}
    (h : matchDollarNum cs = some (g, r)) :
    ∃ v, parseFloat? (stripCommas g) = some v := by
  rw [matchDollarNum.eq_def] at h
  split at h
  · next cs' =>
      by_cases hd : (digitRun cs').1 = []
      · simp [hd] at h
      · simp only [hd, if_false] at h
        injection h with h'
        injection h' with hgl hrl
        subst hgl
        exact numShape_parsable (digitRun_all cs') hd
          (commaGroups_digits (digitRun cs').2)
          (dotGroup2_shape (commaGroups (digitRun cs').2).2)
  · cases h

theorem matchDollarK_parsable {cs g r : List Char}
    (h : matchDollarK cs = some (g, r)) :
    ∃ v, parseFloat? (stripCommas g) = some v := by
  rw [matchDollarK.eq_def] at h
  split at h
  · next cs' =>
      by_cases hd : (digitRun cs').1 = []
      · simp [hd] at h
      · simp only [hd, if_false] at h
        rcases hk : kHead (digitRun cs').2 with _ | rest
        · rw [hk] at h
          rcases hdot : dotHead (digitRun cs').2 with _ | cs2
          · rw [hdot] at h
            cases h
          · rw [hdot] at h
            by_cases hf : (digitRun cs2).1 = []
            · simp [hf] at h
            · simp only [hf, if_false] at h
              rcases hk2 : kHead (digitRun cs2).2 with _ | rest2
              · rw [hk2] at h
                cases h
              · rw [hk2] at h
                injection h with h'
                injection h' with hgl hrl
                subst hgl
                rw [dotDigits_noComma (digitRun_all cs') (digitRun_all cs2)]
                exact ⟨_, parseFloat_digits_dot (digitRun_all cs') (digitRun_all cs2) hd⟩
        · rw [hk] at h
          injection h with h'
          injection h' with hgl hrl
          subst hgl
          rw [stripCommas_of_digits (digitRun_all cs')]
          exact ⟨_, parseFloat_digits (digitRun_all cs') hd⟩
  · cases h

theorem matchNumUSD_parsable {cs g r : List Char}
    (h : matchNumUSD cs = some (g, r)) :
    ∃ v, parseFloat? (stripCommas g) = some v := by
  rw [matchNumUSD.eq_def] at h
  by_cases hd : (digitRun cs).1 = []
  · simp [hd] at h
  · simp only [hd, if_false] at h
    split at h
    · injection h with h'
      injection h' with hgl hrl
      subst hgl
      exact numShape_parsable (digitRun_all cs) hd
        (commaGroups_digits (digitRun cs).2)
        (dotGroup2_shape (commaGroups (digitRun cs).2).2)
    · cases h

theorem findallAux_parsable {m : List Char → Option (List Char × List Char)}
    (hm : ∀ cs g r, m cs = some (g, r) → ∃ v, parseFloat? (stripCommas g) = some v) :
    ∀ fuel cs g, g ∈ findallAux m fuel cs → ∃ v, parseFloat? (stripCommas g) = some v := by
  intro fuel
  induction fuel with
  | zero => intro cs g h; simp [findallAux] at h
  | succ n ih =>
      intro cs g h
      cases cs with
      | nil => simp [findallAux] at h
      | cons c t =>
          rw [findallAux] at h
          rcases hmc : m (c :: t) with _ | ⟨g', r'⟩
          · rw [hmc] at h
            exact ih t g h
          · rw [hmc] at h
            rcases List.mem_cons.mp h with rfl | h'
            · exact hm _ _ _ hmc
            · exact ih r' g h'

theorem findall_parsable {m : List Char → Option (List Char × List Char)}
    (hm : ∀ cs g r, m cs = some (g, r) → ∃ v, parseFloat? (stripCommas g) = some v)
    {cs g : List Char} (h : g ∈ findall m cs) :
    ∃ v, parseFloat? (stripCommas g) = some v :=
  findallAux_parsable hm cs.length cs g h

/-- Helper: when some pattern of `extract_bounty_value` matches, the function
returns the parsed first match, scaled by 1000 exactly when the text mentions
a `k` or `K`. -/
theorem extract_first_match (s : String) (g : List Char)
    (h : firstMatch? s = some g) :
    ∃ v, parseFloat? (stripCommas g) = some v ∧
      extract_bounty_value s = if hasK s.data then v * 1000 else v := by
  have hsne : s.data ≠ [] := by
    intro he
    rw [firstMatch?] at h
    simp [he, findall, findallAux] at h
  rw [firstMatch?] at h
  rw [extract_bounty_value, if_neg hsne]
  rcases h1 : findall matchDollarNum s.data with _ | ⟨g1, t1⟩
  · rcases h2 : findall matchDollarK s.data with _ | ⟨g2, t2⟩
    · rcases h3 : findall matchNumUSD s.data with _ | ⟨g3, t3⟩
      · rw [h1, h2, h3] at h
        cases h
      · rw [h1, h2, h3] at h
        have hg : g = g3 := (Option.some.inj h).symm
        have hmem : g ∈ findall matchNumUSD s.data := by
          rw [h3, hg]
          exact List.mem_cons_self g3 t3
        obtain ⟨v, hv⟩ := findall_parsable (fun _ _ _ => matchNumUSD_parsable) hmem
        refine ⟨v, hv, ?_⟩
        have hv' : parseFloat? (stripCommas g3) = some v := hg ▸ hv
        simp [extractPatterns, extractLoop, h1, h2, h3, hv']
    · rw [h1, h2] at h
      have hg : g = g2 := (Option.some.inj h).symm
      have hmem : g ∈ findall matchDollarK s.data := by
        rw [h2, hg]
        exact List.mem_cons_self g2 t2
      obtain ⟨v, hv⟩ := findall_parsable (fun _ _ _ => matchDollarK_parsable) hmem
      refine ⟨v, hv, ?_⟩
      have hv' : parseFloat? (stripCommas g2) = some v := hg ▸ hv
      simp [extractPatterns, extractLoop, h1, h2, hv']
  · rw [h1] at h
    have hg : g = g1 := (Option.some.inj h).symm
    have hmem : g ∈ findall matchDollarNum s.data := by
      rw [h1, hg]
      exact List.mem_cons_self g1 t1
    obtain ⟨v, hv⟩ := findall_parsable (fun _ _ _ => matchDollarNum_parsable) hmem
    refine ⟨v, hv, ?_⟩
    have hv' : parseFloat? (stripCommas g1) = some v := hg ▸ hv
    simp [extractPatterns, extractLoop, h1, hv']

/-- Helper: when no pattern matches anywhere, `extract_bounty_value`
returns `0`. -/
theorem extract_no_match (s : String) (h : firstMatch? s = none) :
    extract_bounty_value s = 0 := by
  rw [firstMatch?] at h
  rcases h1 : findall matchDollarNum s.data with _ | ⟨g1, t1⟩
  · rcases h2 : findall matchDollarK s.data with _ | ⟨g2, t2⟩
    · rcases h3 : findall matchNumUSD s.data with _ | ⟨g3, t3⟩
      · rw [extract_bounty_value]
        split
        · rfl
        · simp [extractPatterns, extractLoop, h1, h2, h3]
      · rw [h1, h2, h3] at h
        cases h
    · rw [h1, h2] at h
      cases h
  · rw [h1] at h
    cases h

theorem toNat_ofNat_valid {n : Nat} (h : n.isValidChar) : (Char.ofNat n).toNat = n := by
  unfold Char.ofNat
  rw [dif_pos h]
  rfl

theorem toLower_eq_k {c : Char} (h : c.toLower = 'k') : c = 'k' ∨ c = 'K' := by
  have h' : (if c.toNat ≥ 65 ∧ c.toNat ≤ 90 then Char.ofNat (c.toNat + 32) else c) = 'k' := h
  by_cases hr : c.toNat ≥ 65 ∧ c.toNat ≤ 90
  · right
    rw [if_pos hr] at h'
    have h2 : (Char.ofNat (c.toNat + 32)).toNat = 107 := by rw [h']; decide
    have hv : (c.toNat + 32).isValidChar := Or.inl (by omega)
    rw [toNat_ofNat_valid hv] at h2
    have h3 : c.toNat = 75 := by omega
    have h4 := Char.ofNat_toNat c
    rw [h3] at h4
    rw [← h4]
  · rw [if_neg hr] at h'
    exact Or.inl h'

/-- The scaling condition of `extract_bounty_value` holds exactly when a
`k` or `K` character occurs anywhere in the text. -/
theorem hasK_iff (cs : List Char) : hasK cs = true ↔ ('k' ∈ cs ∨ 'K' ∈ cs) := by
  unfold hasK
  constructor
  · intro h
    simp only [Bool.or_eq_true] at h
    rcases h with h | h
    · have hm : 'k' ∈ cs.map Char.toLower := by simpa using h
      obtain ⟨c, hc, hlc⟩ := List.mem_map.mp hm
      rcases toLower_eq_k hlc with rfl | rfl
      · exact Or.inl hc
      · exact Or.inr hc
    · right
      simpa using h
  · intro h
    simp only [Bool.or_eq_true]
    rcases h with h | h
    · left
      have hm : 'k' ∈ cs.map Char.toLower := List.mem_map.mpr ⟨'k', h, by decide⟩
      simpa using hm
    · right
      simpa using h

/-! ## Claims C4, C5, C6: the value extractor -/

/-- C4: the value extractor returns 1500.0 for the input text
`$1,500.00` and 2000.0 for the input text `$2k` (the latter through the
heuristic that a `k` anywhere in the text scales the first match,
here the group `2` of the currency-prefixed pattern, by 1000). -/
theorem extract_bounty_value_examples :
    extract_bounty_value "$1,500.00" = 1500 ∧ extract_bounty_value "$2k" = 2000 := by
  constructor
  · obtain ⟨v, hv, he⟩ := extract_first_match "$1,500.00"
      ['1', ',', '5', '0', '0', '.', '0', '0'] (by decide)
    rw [show stripCommas ['1', ',', '5', '0', '0', '.', '0', '0']
        = ['1', '5', '0', '0', '.', '0', '0'] from by decide] at hv
    have hv3 : parseFloat? (['1', '5', '0', '0'] ++ '.' :: ['0', '0'])
        = some ((digitsVal ['1', '5', '0', '0'] : ℚ)
            + (digitsVal ['0', '0'] : ℚ) / (10 ^ (['0', '0'] : List Char).length : ℚ)) :=
      parseFloat_digits_dot (by decide) (by decide) (by decide)
    rw [show ((['1', '5', '0', '0'] : List Char) ++ '.' :: ['0', '0'])
        = ['1', '5', '0', '0', '.', '0', '0'] from rfl, hv] at hv3
    have hveq := Option.some.inj hv3
    rw [he, show hasK ("$1,500.00").data = false from by decide, hveq]
    norm_num [show digitsVal ['1', '5', '0', '0'] = 1500 from by decide,
      show digitsVal ['0', '0'] = 0 from by decide]
  · obtain ⟨v, hv, he⟩ := extract_first_match "$2k" ['2'] (by decide)
    rw [show stripCommas ['2'] = ['2'] from by decide] at hv
    have hv3 : parseFloat? ['2'] = some (digitsVal ['2'] : ℚ) :=
      parseFloat_digits (by decide) (by decide)
    rw [hv] at hv3
    have hveq := Option.some.inj hv3
    rw [he, show hasK ("$2k").data = true from by decide, hveq]
    norm_num [show digitsVal ['2'] = 2 from by decide]

/-- C5: whenever some monetary pattern matches (in the fixed pattern order of
the source), the extractor returns the numeric value of the first match of the
first matching pattern, multiplied by 1000 exactly when a `k` or `K` occurs
anywhere in the input text, whether or not it is attached to the match.  The
existential also shows the first match always parses, so the `ValueError`
fallback of the loop is unreachable. -/
theorem extract_bounty_value_first_match (s : String) (g : List Char)
    (h : firstMatch? s = some g) :
    ∃ v, parseFloat? (stripCommas g) = some v ∧
      extract_bounty_value s
        = if 'k' ∈ s.data ∨ 'K' ∈ s.data then v * 1000 else v := by
  obtain ⟨v, hv, he⟩ := extract_first_match s g h
  refine ⟨v, hv, ?_⟩
  rw [he]
  by_cases hk : 'k' ∈ s.data ∨ 'K' ∈ s.data
  · rw [(hasK_iff s.data).mpr hk, if_pos hk]
    simp
  · have hb : hasK s.data = false := by
      cases hhh : hasK s.data
      · rfl
      · exact absurd ((hasK_iff s.data).mp hhh) hk
    rw [hb, if_neg hk]
    simp

/-- Witness for C5 at the concrete input `$2k`. -/
theorem extract_bounty_value_first_match_witness :
    ∃ v, parseFloat? (stripCommas ['2']) = some v ∧
      extract_bounty_value "$2k"
        = if 'k' ∈ ("$2k").data ∨ 'K' ∈ ("$2k").data then v * 1000 else v :=
  extract_bounty_value_first_match "$2k" ['2'] (by decide)

/-- C6: the extractor is a total function (the embedding returns a rational
for every string, never an exception), and it returns 0 whenever no pattern
matches anywhere in the input, including on the empty string. -/
theorem extract_bounty_value_total (s : String) (h : firstMatch? s = none) :
    extract_bounty_value s = 0 :=
  extract_no_match s h

/-- Witness for C6 at the empty string and at a patternless string. -/
theorem extract_bounty_value_total_witness :
    extract_bounty_value "" = 0 ∧ extract_bounty_value "hello world" = 0 :=
  ⟨extract_bounty_value_total "" (by decide),
   extract_bounty_value_total "hello world" (by decide)⟩

/-! ## The bounty data model and the recency filter -/

/-- A bounty record as built by `scrape_replit_bounties`
(`src/api/index.py` lines 117-124, 320-327, 332-339, 350-357). -/
structure Bounty where
  title : String
  url : String
  value : ℚ
  created_at : String
  raw_text : String
  source : String
deriving DecidableEq

/-- The recency filter loop of `manual_trigger` (`src/api/index.py`
lines 464-474): keep a record when its `created_at` parses to an instant
strictly after the cutoff, and also keep it when parsing fails.  The
timestamp parser (`datetime.fromisoformat` composed with the `Z` fixup) is
library code, abstracted as the `parseTime` parameter; instants are integer
seconds. -/
def filterRecent (parseTime : String → Option ℤ) (cutoff : ℤ) :
    List Bounty → List Bounty
  | [] => []
  | b :: bs =>
      match parseTime b.created_at with
      | some t =>
          if cutoff < t then b :: filterRecent parseTime cutoff bs
          else filterRecent parseTime cutoff bs
      | none => b :: filterRecent parseTime cutoff bs

/-- The recency filter as the spec sentence words it: the subset of records
whose `created_at` is at or after the cutoff (unparseable records kept, per
the spec's other sentence).  Used only to compare the code against the
spec's wording. -/
def recentPerSpec (parseTime : String → Option ℤ) (cutoff : ℤ)
    (l : List Bounty) : List Bounty :=
  l.filter fun b =>
    match parseTime b.created_at with
    | some t => decide (cutoff ≤ t)
    | none => true

/-- A concrete executable timestamp parser for witnesses: decimal integers,
possibly negative. -/
def intOfString? (s : String) : Option ℤ :=
  match s.data with
  | '-' :: ds => if ds ≠ [] ∧ ds.all Char.isDigit then some (-(digitsVal ds : ℤ)) else none
  | ds => if ds ≠ [] ∧ ds.all Char.isDigit then some ((digitsVal ds : ℤ)) else none

/-- A bounty timestamped exactly at the 24-hour cutoff (with `now = 0`). -/
def boundaryBounty : Bounty :=
  ⟨"Boundary", "https://replit.com/bounties", 100, "-86400", "", "s"⟩

/-- A bounty timestamped 25 hours in the past (with `now = 0`). -/
def staleBounty : Bounty :=
  ⟨"Stale", "https://replit.com/bounties", 100, "-90000", "", "s"⟩

/-- A bounty timestamped 1 hour in the past (with `now = 0`). -/
def freshBounty : Bounty :=
  ⟨"Fresh", "https://replit.com/bounties", 100, "-3600", "", "s"⟩

/-- Counterexample to C2 as stated: a record timestamped exactly at
now minus 24 hours is "at or after now minus threshold", so the claimed
subset contains it, but the code's strict comparison drops it. -/
theorem filterRecent_boundary_counterexample :
    filterRecent intOfString? (0 - 86400) [boundaryBounty] = [] ∧
      recentPerSpec intOfString? (0 - 86400) [boundaryBounty] = [boundaryBounty] := by
  constructor
  · have h : intOfString? boundaryBounty.created_at = some (-86400) := by decide
    simp [filterRecent, h]
  · have h : intOfString? boundaryBounty.created_at = some (-86400) := by decide
    simp [recentPerSpec, List.filter, h]

/-- C2 (amended): the recency filter outputs exactly the sublist of records
whose `created_at` fails to parse or parses to an instant strictly after
now minus 24 hours; in particular it excludes every record timestamped
25 hours ago and includes every listed record timestamped 1 hour ago. -/
theorem filterRecent_spec (parseTime : String → Option ℤ) (now : ℤ)
    (l : List Bounty) :
    filterRecent parseTime (now - 86400) l
      = l.filter (fun b =>
          match parseTime b.created_at with
          | some t => decide (now - 86400 < t)
          | none => true) ∧
    (∀ b : Bounty, parseTime b.created_at = some (now - 90000) →
      b ∉ filterRecent parseTime (now - 86400) l) ∧
    (∀ b ∈ l, parseTime b.created_at = some (now - 3600) →
      b ∈ filterRecent parseTime (now - 86400) l) := by
  have hfil : ∀ (cutoff : ℤ) (l : List Bounty),
      filterRecent parseTime cutoff l
        = l.filter (fun b =>
            match parseTime b.created_at with
            | some t => decide (cutoff < t)
            | none => true) := by
    intro cutoff l
    induction l with
    | nil => rfl
    | cons b bs ih =>
        rw [filterRecent, List.filter_cons]
        rcases hp : parseTime b.created_at with _ | t
        · simp [hp, ih]
        · by_cases hlt : cutoff < t
          · simp [hp, hlt, ih]
          · simp [hp, hlt, ih]
  refine ⟨hfil _ l, ?_, ?_⟩
  · intro b hb hmem
    rw [hfil] at hmem
    have := List.of_mem_filter hmem
    rw [hb] at this
    simp only [decide_eq_true_eq] at this
    omega
  · intro b hb hp
    rw [hfil]
    refine List.mem_filter.mpr ⟨hb, ?_⟩
    rw [hp]
    simp only [decide_eq_true_eq]
    omega

/-- Witness for the amended C2: with `now = 0`, the filter on a stale (25h)
and a fresh (1h) record keeps the fresh one. -/
theorem filterRecent_spec_witness :
    freshBounty ∈ filterRecent intOfString? (0 - 86400) [staleBounty, freshBounty] :=
  (filterRecent_spec intOfString? 0 [staleBounty, freshBounty]).2.2 freshBounty
    (by decide) (by decide)

/-- C7: a record whose `created_at` does not parse is kept by the recency
filter (conservatively treated as recent). -/
theorem filterRecent_keeps_unparseable (parseTime : String → Option ℤ)
    (cutoff : ℤ) (l : List Bounty) (b : Bounty) (hb : b ∈ l)
    (hp : parseTime b.created_at = none) :
    b ∈ filterRecent parseTime cutoff l := by
  induction l with
  | nil => cases hb
  | cons a t ih =>
      rcases List.mem_cons.mp hb with rfl | hbt
      · rw [filterRecent, hp]
        exact List.mem_cons_self b _
      · rw [filterRecent]
        rcases hpa : parseTime a.created_at with _ | ta
        · exact List.mem_cons_of_mem a (ih hbt)
        · by_cases hlt : cutoff < ta
          · simp only [hlt, if_true]
            exact List.mem_cons_of_mem a (ih hbt)
          · simp only [hlt, if_false]
            exact ih hbt

/-- A bounty with an unparseable timestamp. -/
def garbledBounty : Bounty :=
  ⟨"Garbled", "https://replit.com/bounties", 100, "not a date", "", "s"⟩

/-- Witness for C7 at a concrete unparseable record. -/
theorem filterRecent_keeps_unparseable_witness :
    garbledBounty ∈ filterRecent intOfString? (0 - 86400) [garbledBounty] :=
  filterRecent_keeps_unparseable intOfString? (0 - 86400) [garbledBounty]
    garbledBounty (by decide) (by decide)

/-! ## Claim C8: the ranking step -/

/-- Embedding of Python `max(items, key=...)` as called on a non-empty list
at `src/api/index.py` line 485: fold from the head, replacing the current
best only on a strictly greater key, so the first of several equal maxima is
kept. -/
def pyMaxBy (key : Bounty → ℚ) : Bounty → List Bounty → Bounty
  | acc, [] => acc
  | acc, x :: xs => if key acc < key x then pyMaxBy key x xs else pyMaxBy key acc xs

/-- C8: on a non-empty list (head `b`, tail `l`), the ranking step selects a
member of maximum value, and among members sharing the maximum value it is
the first-encountered one (the first member whose value reaches the
maximum). -/
theorem pyMaxBy_spec (b : Bounty) (l : List Bounty) :
    pyMaxBy (fun x => x.value) b l ∈ b :: l ∧
    (∀ x ∈ b :: l, x.value ≤ (pyMaxBy (fun x => x.value) b l).value) ∧
    List.find? (fun x => decide ((pyMaxBy (fun y => y.value) b l).value ≤ x.value))
      (b :: l) = some (pyMaxBy (fun x => x.value) b l) := by
  induction l generalizing b with
  | nil =>
      refine ⟨List.mem_cons_self b [], ?_, ?_⟩
      · intro x hx
        rcases List.mem_cons.mp hx with rfl | hx'
        · exact le_refl _
        · cases hx'
      · exact List.find?_cons_of_pos [] (by simp [pyMaxBy])
  | cons x xs ih =>
      by_cases hbx : b.value < x.value
      · obtain ⟨ihm, ihmax, ihfind⟩ := ih x
        have hred : pyMaxBy (fun y => y.value) b (x :: xs)
            = pyMaxBy (fun y => y.value) x xs := by
          simp [pyMaxBy, hbx]
        have hbM : b.value < (pyMaxBy (fun y => y.value) x xs).value :=
          lt_of_lt_of_le hbx (ihmax x (List.mem_cons_self x xs))
        refine ⟨?_, ?_, ?_⟩
        · rw [hred]
          exact List.mem_cons_of_mem b ihm
        · intro y hy
          rw [hred]
          rcases List.mem_cons.mp hy with rfl | hy'
          · exact le_of_lt hbM
          · exact ihmax y hy'
        · rw [hred, List.find?_cons_of_neg _ (by simp [not_le.mpr hbM])]
          exact ihfind
      · obtain ⟨ihm, ihmax, ihfind⟩ := ih b
        have hred : pyMaxBy (fun y => y.value) b (x :: xs)
            = pyMaxBy (fun y => y.value) b xs := by
          simp [pyMaxBy, hbx]
        have hxb : x.value ≤ b.value := not_lt.mp hbx
        have hbM : b.value ≤ (pyMaxBy (fun y => y.value) b xs).value :=
          ihmax b (List.mem_cons_self b xs)
        refine ⟨?_, ?_, ?_⟩
        · rw [hred]
          rcases List.mem_cons.mp ihm with h' | h'
          · rw [h']
            exact List.mem_cons_self b (x :: xs)
          · exact List.mem_cons_of_mem b (List.mem_cons_of_mem x h')
        · intro y hy
          rw [hred]
          rcases List.mem_cons.mp hy with rfl | hy'
          · exact hbM
          · rcases List.mem_cons.mp hy' with rfl | hy''
            · exact le_trans hxb hbM
            · exact ihmax y (List.mem_cons_of_mem b hy'')
        · rw [hred]
          by_cases hMb : (pyMaxBy (fun y => y.value) b xs).value ≤ b.value
          · have h1 : List.find? (fun y =>
                decide ((pyMaxBy (fun z => z.value) b xs).value ≤ y.value)) (b :: xs)
                = some b := List.find?_cons_of_pos xs (by simp [hMb])
            rw [ihfind] at h1
            have h2 := Option.some.inj h1
            rw [h2] at hMb ⊢
            refine List.find?_cons_of_pos _ ?_
            simp
          · have hMb' : b.value < (pyMaxBy (fun y => y.value) b xs).value :=
              not_le.mp hMb
            rw [List.find?_cons_of_neg _ (by simp [hMb]),
              List.find?_cons_of_neg _ (by simp [not_le.mpr (lt_of_le_of_lt hxb hMb')])]
            rw [List.find?_cons_of_neg _ (by simp [hMb])] at ihfind
            exact ihfind

/-- Witness instantiating C8 on a concrete two-element list. -/
theorem pyMaxBy_spec_witness :
    pyMaxBy (fun x => x.value) staleBounty [freshBounty] ∈ [staleBounty, freshBounty] :=
  (pyMaxBy_spec staleBounty [freshBounty]).1

/-! ## The trigger endpoint: dedup state and notification outcomes -/

/-- The response statuses `manual_trigger` can produce
(`src/api/index.py` lines 456-521).  `error` is the status of the
exception handler, which also carries HTTP code 500. -/
inductive TriggerStatus where
  | no_bounties
  | no_recent_bounties
  | already_sent
  | success
  | notification_failed
  | error
deriving DecidableEq

/-- A trigger response: the JSON `status` field, the HTTP status code, and
the state of the module-level `sent_bounties` set after the call. -/
structure TriggerResponse where
  status : TriggerStatus
  httpCode : Nat
  sent : Finset String

/-- Embedding of `send_slack_notification` (`src/api/index.py` lines
359-422): `False` when `SLACK_WEBHOOK_URL` is unset, otherwise the outcome
of the webhook POST (abstracted as `postOk`; every exception of the POST is
caught and turned into `False`). -/
def send_slack_notification (webhookUrl : Option String) (postOk : Bool) : Bool :=
  match webhookUrl with
  | none => false
  | some _ => postOk

/-- The composite dedup key of `manual_trigger`
(`src/api/index.py` line 488): title, dash, value. -/
def bountyId (b : Bounty) : String :=
  b.title ++ "-" ++ toString b.value

/-- Embedding of `manual_trigger` (`src/api/index.py` lines 450-521) as a
function of its inputs: the webhook environment variable, the POST outcome,
the timestamp parser, the current instant, the scraped bounty list, and the
current `sent_bounties` set.  The body never raises in this model, so the
500 `error` arm of the Python handler is not produced. -/
def manual_trigger (webhookUrl : Option String) (postOk : Bool)
    (parseTime : String → Option ℤ) (now : ℤ)
    (bounties : List Bounty) (sent_bounties : Finset String) : TriggerResponse :=
  match bounties with
  | [] => ⟨TriggerStatus.no_bounties, 200, sent_bounties⟩
  | _ :: _ =>
    match filterRecent parseTime (now - 86400) bounties with
    | [] => ⟨TriggerStatus.no_recent_bounties, 200, sent_bounties⟩
    | b :: rest =>
        let highest := pyMaxBy (fun x => x.value) b rest
        if bountyId highest ∈ sent_bounties then
          ⟨TriggerStatus.already_sent, 200, sent_bounties⟩
        else if send_slack_notification webhookUrl postOk then
          ⟨TriggerStatus.success, 200, insert (bountyId highest) sent_bounties⟩
        else
          ⟨TriggerStatus.notification_failed, 200, sent_bounties⟩

/-- Counterexample to C1 as stated: with the webhook unset, a run that
reaches the notification step responds with HTTP 200 (status
`notification_failed`), not a 500-equivalent configuration-error
response. -/
theorem missing_webhook_counterexample :
    (manual_trigger none true intOfString? 0 [freshBounty] ∅).httpCode = 200 ∧
    (manual_trigger none true intOfString? 0 [freshBounty] ∅).httpCode ≠ 500 ∧
    (manual_trigger none true intOfString? 0 [freshBounty] ∅).status
      = TriggerStatus.notification_failed := by
  refine ⟨?_, ?_, ?_⟩ <;> decide

/-- C1 (amended): when `SLACK_WEBHOOK_URL` is absent, the trigger endpoint
does not crash and cannot succeed or grow the sent-set: every response
carries HTTP 200 (never the 500 `error` arm), and whenever the run reaches
the notification step its status is `notification_failed`. -/
theorem manual_trigger_missing_webhook (postOk : Bool)
    (parseTime : String → Option ℤ) (now : ℤ) (bounties : List Bounty)
    (sent : Finset String) :
    (manual_trigger none postOk parseTime now bounties sent).httpCode = 200 ∧
    (manual_trigger none postOk parseTime now bounties sent).status
      ≠ TriggerStatus.error ∧
    (manual_trigger none postOk parseTime now bounties sent).status
      ≠ TriggerStatus.success ∧
    (manual_trigger none postOk parseTime now bounties sent).sent = sent ∧
    (∀ b rest, filterRecent parseTime (now - 86400) bounties = b :: rest →
      bountyId (pyMaxBy (fun x => x.value) b rest) ∉ sent →
      (manual_trigger none postOk parseTime now bounties sent).status
        = TriggerStatus.notification_failed) := by
  rcases bounties with _ | ⟨b0, t0⟩
  · refine ⟨rfl, fun h => TriggerStatus.noConfusion h,
      fun h => TriggerStatus.noConfusion h, rfl, ?_⟩
    intro b rest heq hmem
    simp [filterRecent] at heq
  · rcases hrec : filterRecent parseTime (now - 86400) (b0 :: t0) with _ | ⟨b1, rest1⟩
    · have hm : manual_trigger none postOk parseTime now (b0 :: t0) sent
          = ⟨TriggerStatus.no_recent_bounties, 200, sent⟩ := by
        simp [manual_trigger, hrec]
      rw [hm]
      refine ⟨rfl, fun h => TriggerStatus.noConfusion h,
        fun h => TriggerStatus.noConfusion h, rfl, ?_⟩
      intro b rest heq hmem
      cases heq
    · by_cases hsent : bountyId (pyMaxBy (fun x => x.value) b1 rest1) ∈ sent
      · have hm : manual_trigger none postOk parseTime now (b0 :: t0) sent
            = ⟨TriggerStatus.already_sent, 200, sent⟩ := by
          simp [manual_trigger, hrec, hsent]
        rw [hm]
        refine ⟨rfl, fun h => TriggerStatus.noConfusion h,
          fun h => TriggerStatus.noConfusion h, rfl, ?_⟩
        intro b rest heq hmem
        injection heq with hb hr
        subst hb
        subst hr
        exact absurd hsent hmem
      · have hm : manual_trigger none postOk parseTime now (b0 :: t0) sent
            = ⟨TriggerStatus.notification_failed, 200, sent⟩ := by
          simp [manual_trigger, hrec, hsent, send_slack_notification]
        rw [hm]
        exact ⟨rfl, fun h => TriggerStatus.noConfusion h,
          fun h => TriggerStatus.noConfusion h, rfl, fun b rest heq hmem => rfl⟩

/-- Witness for the amended C1: the concrete run of
`missing_webhook_counterexample`, derived by applying the theorem. -/
theorem manual_trigger_missing_webhook_witness :
    (manual_trigger none true intOfString? 0 [freshBounty] ∅).status
      = TriggerStatus.notification_failed :=
  (manual_trigger_missing_webhook true intOfString? 0 [freshBounty] ∅).2.2.2.2
    freshBounty [] (by decide) (by decide)

/-- C3: dedup behaviour of the trigger cycle.  With the recent list known,
writing `key` for the composite title-dash-value key of the selected highest
bounty: if `key` is already in the in-memory sent-set the run reports
`already_sent` and skips notification; otherwise on a successful
notification the run reports `success` and adds exactly `key` to the set;
on a failed notification the run reports `notification_failed` and leaves
the set unchanged; and a successful call followed by a second call on the
same scrape result and the resulting state reports `already_sent`. -/
theorem manual_trigger_dedup (webhook : Option String) (postOk : Bool)
    (parseTime : String → Option ℤ) (now : ℤ) (bounties : List Bounty)
    (sent : Finset String) (b : Bounty) (rest : List Bounty)
    (hrec : filterRecent parseTime (now - 86400) bounties = b :: rest) :
    (bountyId (pyMaxBy (fun x => x.value) b rest) ∈ sent →
      manual_trigger webhook postOk parseTime now bounties sent
        = ⟨TriggerStatus.already_sent, 200, sent⟩) ∧
    (bountyId (pyMaxBy (fun x => x.value) b rest) ∉ sent →
      send_slack_notification webhook postOk = true →
      manual_trigger webhook postOk parseTime now bounties sent
        = ⟨TriggerStatus.success, 200,
            insert (bountyId (pyMaxBy (fun x => x.value) b rest)) sent⟩) ∧
    (bountyId (pyMaxBy (fun x => x.value) b rest) ∉ sent →
      send_slack_notification webhook postOk = false →
      manual_trigger webhook postOk parseTime now bounties sent
        = ⟨TriggerStatus.notification_failed, 200, sent⟩) ∧
    ((manual_trigger webhook postOk parseTime now bounties sent).status
        = TriggerStatus.success →
      (manual_trigger webhook postOk parseTime now bounties
          ((manual_trigger webhook postOk parseTime now bounties sent).sent)).status
        = TriggerStatus.already_sent) := by
  have hbne : bounties ≠ [] := by
    intro he
    rw [he] at hrec
    simp [filterRecent] at hrec
  rcases bounties with _ | ⟨b0, t0⟩
  · exact absurd rfl hbne
  · refine ⟨?_, ?_, ?_, ?_⟩
    · intro hmem
      simp [manual_trigger, hrec, hmem]
    · intro hmem hsend
      simp [manual_trigger, hrec, hmem, hsend]
    · intro hmem hsend
      simp [manual_trigger, hrec, hmem, hsend]
    · intro hs
      by_cases hmem : bountyId (pyMaxBy (fun x => x.value) b rest) ∈ sent
      · have h1 : manual_trigger webhook postOk parseTime now (b0 :: t0) sent
            = ⟨TriggerStatus.already_sent, 200, sent⟩ := by
          simp [manual_trigger, hrec, hmem]
        rw [h1] at hs
        exact TriggerStatus.noConfusion hs
      · rcases hsend : send_slack_notification webhook postOk with _ | _
        · have h1 : manual_trigger webhook postOk parseTime now (b0 :: t0) sent
              = ⟨TriggerStatus.notification_failed, 200, sent⟩ := by
            simp [manual_trigger, hrec, hmem, hsend]
          rw [h1] at hs
          exact TriggerStatus.noConfusion hs
        · have h1 : manual_trigger webhook postOk parseTime now (b0 :: t0) sent
              = ⟨TriggerStatus.success, 200,
                  insert (bountyId (pyMaxBy (fun x => x.value) b rest)) sent⟩ := by
            simp [manual_trigger, hrec, hmem, hsend]
          rw [h1]
          simp [manual_trigger, hrec, Finset.mem_insert_self]

/-- Witness for C3: a concrete successful call followed by a second call on
the same inputs reports `already_sent`. -/
theorem manual_trigger_dedup_witness :
    (manual_trigger (some "hook") true intOfString? 0 [freshBounty]
        ((manual_trigger (some "hook") true intOfString? 0 [freshBounty] ∅).sent)).status
      = TriggerStatus.already_sent := by
  have h := manual_trigger_dedup (some "hook") true intOfString? 0 [freshBounty] ∅
    freshBounty [] (by decide)
  refine h.2.2.2 ?_
  have h2 := h.2.1 (by decide) rfl
  rw [h2]

/-! ## The scraper: fallback and non-emptiness -/

/-- The fetched and parsed page, as far as the scraper reads it: the full
visible text and the anchors carrying an `href` (anchor text, href).  The
HTTP GET and BeautifulSoup are library code, abstracted behind `Except`:
any exception in the fetch or parse lands in the `error` case. -/
structure Page where
  text : String
  links : List (String × String)

/-- Bool test that `pat` occurs at the start of `cs`. -/
def beginsWith : List Char → List Char → Bool
  | [], _ => true
  | _ :: _, [] => false
  | a :: as, b :: bs => a = b && beginsWith as bs

/-- Bool test that `pat` occurs somewhere inside `cs` (Python `in` on
strings). -/
def containsSub (pat : List Char) : List Char → Bool
  | [] => beginsWith pat []
  | c :: cs => beginsWith pat (c :: cs) || containsSub pat cs

/-- Embedding of the href absolutisation (`src/api/index.py` lines
100-101). -/
def absoluteUrl (href : String) : String :=
  if href.startsWith "http" then href else "https://replit.com" ++ href

/-- Embedding of the bounty-link collection (`src/api/index.py` lines
91-102): keep anchors with a non-empty href whose lowercased href mentions
`bounty` or `bounties`. -/
def bountyLinks (links : List (String × String)) : List (String × String) :=
  links.filterMap fun tl =>
    if ¬(tl.2 = "") ∧
        (containsSub ("bounty".data) (tl.2.data.map Char.toLower) = true ∨
         containsSub ("bounties".data) (tl.2.data.map Char.toLower) = true) then
      some (tl.1, absoluteUrl tl.2)
    else none

/-- The page-scanning price patterns (`src/api/index.py` lines 71-75),
each paired with the code's per-pattern ×1000 flag (`'k' in pattern.lower()`,
true only for the third pattern string). -/
def pricePatterns : List ((List Char → Option (List Char × List Char)) × Bool) :=
  [(matchDollarNum, false), (matchNumUSD, false), (matchNumK, true)]

/-- Embedding of the price-mention collection (`src/api/index.py` lines
78-88): all matches of all three patterns in order, parsed, scaled by the
per-pattern flag, unparseable matches skipped. -/
def allPrices (text : List Char) : List ℚ :=
  pricePatterns.foldl
    (fun acc p =>
      acc ++ (findall p.1 text).filterMap (fun g =>
        match parseFloat? (stripCommas g) with
        | some v => some (if p.2 then v * 1000 else v)
        | none => none))
    []

/-- One sample bounty from a found price (`src/api/index.py` lines
109-124): link title and url when a bounty link with this index exists
(falling back to the default title when the anchor text is empty). -/
def sampleBounty (nowIso : String) (links : List (String × String))
    (i : Nat) (price : ℚ) : Bounty :=
  match links.get? i with
  | some tu =>
      ⟨if tu.1 = "" then "Replit Bounty #" ++ toString (i + 1) else tu.1, tu.2,
        price, nowIso, "Found price: $" ++ toString price, "price_detection"⟩
  | none =>
      ⟨"Replit Bounty #" ++ toString (i + 1), "https://replit.com/bounties",
        price, nowIso, "Found price: $" ++ toString price, "price_detection"⟩

/-- The sample bounties from the first five found prices
(`src/api/index.py` line 109). -/
def sampleBounties (nowIso : String) (links : List (String × String))
    (prices : List ℚ) : List Bounty :=
  (prices.take 5).enum.map fun ip => sampleBounty nowIso links ip.1 ip.2

/-- Python `text.split('\n')`. -/
def splitLines : List Char → List (List Char)
  | [] => [[]]
  | '\n' :: cs => [] :: splitLines cs
  | c :: cs =>
      match splitLines cs with
      | l :: ls => (c :: l) :: ls
      | [] => [[c]]

/-- Python `line.strip()`. -/
def stripEnds (cs : List Char) : List Char :=
  ((cs.dropWhile Char.isWhitespace).reverse.dropWhile Char.isWhitespace).reverse

/-- Embedding of the text-line bounty scan (`src/api/index.py` lines
127-130 and 317-327): strip the line, require length over 20 and a dollar
sign or the word `bounty`, and keep it when the extractor finds a positive
value. -/
def lineBounty? (nowIso : String) (raw : List Char) : Option Bounty :=
  let line := stripEnds raw
  if 20 < line.length ∧
      (line.contains '$' = true ∨
       containsSub ("bounty".data) (line.map Char.toLower) = true) then
    let v := extract_bounty_value (String.mk line)
    if 0 < v then
      some ⟨String.mk (line.take 100), "https://replit.com/bounties", v, nowIso,
        String.mk line, "text_parsing"⟩
    else none
  else none

/-- The demo bounty appended when nothing was found
(`src/api/index.py` lines 330-339). -/
def demoBounty (nowIso : String) : Bounty :=
  ⟨"Demo: Build a React Dashboard", "https://replit.com/bounties", 750, nowIso,
    "Demo bounty for testing purposes - $750", "demo"⟩

/-- The fallback bounty returned when scraping raises
(`src/api/index.py` lines 347-357). -/
def fallbackBounty (nowIso : String) : Bounty :=
  ⟨"Demo: API Integration Project", "https://replit.com/bounties", 500, nowIso,
    "Demo bounty for testing purposes - $500", "fallback"⟩

/-- Embedding of `scrape_replit_bounties` (`src/api/index.py` lines
47-130 and 317-357): price-detection bounties, then text-line bounties,
a demo bounty when both are empty, sorted by value descending (stable);
on any exception, the single fallback bounty. -/
def scrape_replit_bounties (fetch : Except Unit Page) (nowIso : String) :
    List Bounty :=
  match fetch with
  | Except.error _ => [fallbackBounty nowIso]
  | Except.ok page =>
      let pageText := page.text.data
      let prices := allPrices pageText
      let links := bountyLinks page.links
      let fromPrices := sampleBounties nowIso links prices
      let fromLines := (splitLines pageText).filterMap (lineBounty? nowIso)
      let found := fromPrices ++ fromLines
      let withDemo := if found = [] then found ++ [demoBounty nowIso] else found
      withDemo.mergeSort (fun a b => decide (b.value ≤ a.value))

/-- C9: when the scrape raises, `scrape_replit_bounties` catches the
exception and returns exactly one demo record with value 500.0 and source
`fallback` instead of propagating. -/
theorem scrape_replit_bounties_fallback (nowIso : String) :
    scrape_replit_bounties (Except.error ()) nowIso = [fallbackBounty nowIso] ∧
    (fallbackBounty nowIso).value = 500 ∧
    (fallbackBounty nowIso).source = "fallback" :=
  ⟨rfl, rfl, rfl⟩

/-- C10: `scrape_replit_bounties` always returns a non-empty list (the demo
record is appended when nothing is found and the fallback record is
returned on exception), so the `no_bounties` branch of the trigger endpoint
is unreachable on its output. -/
theorem scrape_replit_bounties_nonempty (fetch : Except Unit Page)
    (nowIso : String) (webhookUrl : Option String) (postOk : Bool)
    (parseTime : String → Option ℤ) (now : ℤ) (sent : Finset String) :
    0 < (scrape_replit_bounties fetch nowIso).length ∧
    (manual_trigger webhookUrl postOk parseTime now
        (scrape_replit_bounties fetch nowIso) sent).status
      ≠ TriggerStatus.no_bounties := by
  have hne : scrape_replit_bounties fetch nowIso ≠ [] := by
    cases fetch with
    | error e => simp [scrape_replit_bounties]
    | ok page =>
        simp only [scrape_replit_bounties]
        intro hcontra
        have hlen := congrArg List.length hcontra
        rw [List.length_mergeSort] at hlen
        by_cases hA : sampleBounties nowIso (bountyLinks page.links)
            (allPrices page.text.data)
            ++ (splitLines page.text.data).filterMap (lineBounty? nowIso) = []
        · rw [if_pos hA, hA] at hlen
          simp at hlen
        · rw [if_neg hA] at hlen
          exact hA (List.length_eq_zero.mp hlen)
  constructor
  · exact List.length_pos.mpr hne
  · rcases hs : scrape_replit_bounties fetch nowIso with _ | ⟨b0, t0⟩
    · exact absurd hs hne
    · simp only [manual_trigger]
      split
      · exact fun h => TriggerStatus.noConfusion h
      · split
        · exact fun h => TriggerStatus.noConfusion h
        · split
          · exact fun h => TriggerStatus.noConfusion h
          · exact fun h => TriggerStatus.noConfusion h

/-- Witness instantiating C10 on the failing fetch. -/
theorem scrape_replit_bounties_nonempty_witness :
    0 < (scrape_replit_bounties (Except.error ()) "2024-01-01").length :=
  (scrape_replit_bounties_nonempty (Except.error ()) "2024-01-01" none false
    intOfString? 0 ∅).1

end Scraper
